import Mathlib

/-!
# Verification of the field-usage aggregation core of SF-Meta-Explorter

Shallow embedding of `src/field_usage_tracker.py` (class `FieldUsageTracker`).

Modelling conventions:
* Python `dict`s (which preserve insertion order: updating an existing key
  keeps its place, a new key is appended at the end) are modelled as
  association lists `List (String × α)` together with `alGet` / `alUpsert`.
* Python `set`s are modelled as duplicate-free lists maintained by
  `addEntity` (membership test before append).  The code never observes the
  iteration order of a set directly: every place a set's elements become
  visible passes through `sorted(...)`, modelled by `pySorted`.
* The remote Salesforce connection (`simple_salesforce`) is a collaborator:
  it is modelled by an environment `SfEnv` mapping each query a collector
  issues to its outcome, and each `describe()` call to its outcome.
* Exceptions are modelled by outcome types: a `QOutcome.queryError` is an
  exception raised inside `_tooling_query` (caught there, yielding
  `{'records': []}`), a `QOutcome.procError msg processed` is an exception
  raised while iterating the records after `processed` of them were handled
  (caught by the collector's own `try`, which returns the partial mapping),
  and `describe` failures are `Except.error` (also caught by the collector's
  `try`, before any record was processed).
-/

/-- `d[k]` lookup in a Python dict modelled as an association list
(first binding of the key, and keys stay unique under `alUpsert`). -/
def alGet {α : Type} : List (String × α) → String → Option α
  | [], _ => none
  | (k', v) :: t, k => if k' = k then some v else alGet t k

/-- `d.get(k, dflt)`. -/
def alGetD {α : Type} (l : List (String × α)) (k : String) (dflt : α) : α :=
  (alGet l k).getD dflt

/-- `d[k] = f(d.get(k))`: update the binding in place when the key is
present (Python dicts keep the key's position), append it otherwise. -/
def alUpsert {α : Type} : List (String × α) → String → (Option α → α) → List (String × α)
  | [], k, f => [(k, f none)]
  | (k', v) :: t, k, f => if k' = k then (k', f (some v)) :: t else (k', v) :: alUpsert t k f

/-- The keys of a dict, in insertion order. -/
def alKeys {α : Type} (l : List (String × α)) : List String := l.map (·.1)

@[simp] theorem alGet_nil {α : Type} (k : String) : alGet ([] : List (String × α)) k = none := rfl

@[simp] theorem alGet_cons {α : Type} (k' k : String) (v : α) (t : List (String × α)) :
    alGet ((k', v) :: t) k = if k' = k then some v else alGet t k := rfl

theorem alGet_upsert {α : Type} (l : List (String × α)) (k : String) (f : Option α → α)
    (k' : String) :
    alGet (alUpsert l k f) k' = if k = k' then some (f (alGet l k)) else alGet l k' := by
  induction l with
  | nil =>
    by_cases h : k = k' <;> simp [alUpsert, alGet, h]
  | cons p t ih =>
    obtain ⟨k₀, v₀⟩ := p
    by_cases h₀ : k₀ = k
    · subst h₀
      by_cases h : k₀ = k' <;> simp [alUpsert, alGet, h]
    · simp only [alUpsert, if_neg h₀]
      by_cases h : k₀ = k'
      · subst h
        have : ¬ k = k₀ := fun hk => h₀ hk.symm
        simp [alGet, this]
      · simp [alGet, h, ih, h₀]

theorem alGet_upsert_self {α : Type} (l : List (String × α)) (k : String) (f : Option α → α) :
    alGet (alUpsert l k f) k = some (f (alGet l k)) := by
  simp [alGet_upsert]

theorem alGet_upsert_other {α : Type} (l : List (String × α)) (k : String) (f : Option α → α)
    (k' : String) (h : k ≠ k') : alGet (alUpsert l k f) k' = alGet l k' := by
  simp [alGet_upsert, h]

/-- Values of an upserted dict: the new binding's value is `f` of the old
one (or of `none`), every other value was already there. -/
theorem alUpsert_values {α : Type} {P : α → Prop} {l : List (String × α)} {k : String}
    {f : Option α → α} (hl : ∀ p ∈ l, P p.2)
    (hnew : P (f none)) (hold : ∀ v, P v → P (f (some v))) :
    ∀ p ∈ alUpsert l k f, P p.2 := by
  induction l with
  | nil =>
    intro q hq
    simp only [alUpsert, List.mem_singleton] at hq
    subst hq; exact hnew
  | cons p t ih =>
    obtain ⟨k₀, v₀⟩ := p
    intro q hq
    by_cases h₀ : k₀ = k
    · subst h₀
      simp only [alUpsert, if_pos rfl] at hq
      cases hq with
      | head => exact hold _ (hl (k₀, v₀) (by simp))
      | tail _ h => exact hl q (List.mem_cons_of_mem _ h)
    · simp only [alUpsert, if_neg h₀] at hq
      cases hq with
      | head => exact hl (k₀, v₀) (by simp)
      | tail _ h => exact ih (fun p hp => hl p (List.mem_cons_of_mem _ hp)) q h

theorem alGet_eq_none_iff {α : Type} (l : List (String × α)) (k : String) :
    alGet l k = none ↔ k ∉ alKeys l := by
  induction l with
  | nil => simp [alKeys]
  | cons p t ih =>
    obtain ⟨k₀, v₀⟩ := p
    by_cases h : k₀ = k
    · subst h
      simp [alGet, alKeys]
    · have h' : ¬ k = k₀ := fun hk => h hk.symm
      simp [alGet, alKeys, h, h', ih]

theorem alKeys_upsert {α : Type} (l : List (String × α)) (k : String) (f : Option α → α) :
    alKeys (alUpsert l k f) = if k ∈ alKeys l then alKeys l else alKeys l ++ [k] := by
  induction l with
  | nil => simp [alUpsert, alKeys]
  | cons p t ih =>
    obtain ⟨k₀, v₀⟩ := p
    by_cases h : k₀ = k
    · subst h; simp [alUpsert, alKeys]
    · have h' : ¬ k = k₀ := fun hk => h hk.symm
      have hcons : alUpsert ((k₀, v₀) :: t) k f = (k₀, v₀) :: alUpsert t k f := by
        simp [alUpsert, h]
      rw [hcons]
      have hk1 : alKeys ((k₀, v₀) :: alUpsert t k f) = k₀ :: alKeys (alUpsert t k f) := rfl
      have hk2 : alKeys ((k₀, v₀) :: t) = k₀ :: alKeys t := rfl
      rw [hk1, hk2, ih]
      by_cases hm : k ∈ alKeys t
      · simp [hm, h']
      · simp [hm, h']

theorem alKeys_upsert_nodup {α : Type} {l : List (String × α)} (k : String) (f : Option α → α)
    (h : (alKeys l).Nodup) : (alKeys (alUpsert l k f)).Nodup := by
  rw [alKeys_upsert]
  by_cases hm : k ∈ alKeys l
  · simpa [hm]
  · simpa [hm, List.nodup_append] using h

/-- Membership in some value of the dict: there is a key whose value
contains the element.  Used to phrase collector-output properties. -/
def alHasVal {α : Type} (l : List (String × α)) (P : α → Prop) : Prop :=
  ∃ p ∈ l, P p.2

/-! ## Python built-ins used by the tracker -/

/-- Lexicographic strict comparison of strings by code point — the
comparison Python uses for `str`. -/
def pyStrLt : List Char → List Char → Bool
  | [], [] => false
  | [], _ :: _ => true
  | _ :: _, [] => false
  | c :: cs, d :: ds =>
    if c.toNat < d.toNat then true
    else if d.toNat < c.toNat then false
    else pyStrLt cs ds

/-- The matching total `≤`. -/
def pyStrLe (a b : String) : Bool := !(pyStrLt b.data a.data)

/-- Python `sorted(items)` on strings: the ascending lexicographic (by code
point) rearrangement.  Python's sort is stable, but every list sorted by the
tracker is duplicate-free (it comes from a `set`), so stability never
matters and insertion sort computes the same sequence. -/
def pySorted (l : List String) : List String :=
  l.insertionSort (fun a b => pyStrLe a b = true)

theorem pySorted_perm (l : List String) : (pySorted l).Perm l :=
  List.perm_insertionSort _ l

theorem mem_pySorted {x : String} {l : List String} : x ∈ pySorted l ↔ x ∈ l :=
  (pySorted_perm l).mem_iff

theorem pySorted_nodup {l : List String} (h : l.Nodup) : (pySorted l).Nodup :=
  ((pySorted_perm l).nodup_iff).mpr h

theorem pySorted_ne_nil {l : List String} (h : l ≠ []) : pySorted l ≠ [] := by
  intro hc
  have hp : List.Perm ([] : List String) l := hc ▸ pySorted_perm l
  exact h hp.symm.eq_nil

/-- Python `sub in s` on strings: contiguous substring test (over code
points). -/
def pyIn (sub s : String) : Bool := decide (sub.data <:+: s.data)

/-- Python `s.endswith(suffix)`: suffix test over code points. -/
def pyEndsWith (suffix s : String) : Bool := decide (suffix.data <:+ s.data)

/-- Python `sep.join(parts)`. -/
def pyJoin (sep : String) : List String → String
  | [] => ""
  | [a] => a
  | a :: rest => a ++ sep ++ pyJoin sep rest

/-- Python `s.strip()` for the whitespace the report can produce (spaces,
tabs, newlines): drop whitespace from both ends. -/
def pyStrip (s : String) : String :=
  String.mk (((s.data.dropWhile Char.isWhitespace).reverse.dropWhile
    Char.isWhitespace).reverse)

/-- One hex digit, uppercase, as `urllib.parse.quote` prints it. -/
def hexUpper (n : Nat) : Char := if n < 10 then Char.ofNat (48 + n) else Char.ofNat (55 + n)

/-- The characters `urllib.parse.quote` leaves as themselves under the
default `safe='/'`: ASCII letters and digits, `_.-~`, and `/`. -/
def pyQuoteSafe (c : Char) : Bool :=
  c.isAlphanum || c = '_' || c = '.' || c = '-' || c = '~' || c = '/'

/-- `urllib.parse.quote(c)` for one character. -/
def pyQuoteChar (c : Char) : List Char :=
  if pyQuoteSafe c then [c]
  else ['%', hexUpper (c.toNat / 16 % 16), hexUpper (c.toNat % 16)]

/-- `urllib.parse.quote(s)` (default `safe='/'`).  Modelled per code point:
for ASCII text (every query string the tracker builds is ASCII apart from
the interpolated object name) this agrees with Python, which percent-encodes
the UTF-8 bytes; for non-ASCII code points the hex digits would differ, but
the only fact the theorems use — the output never contains characters such
as a single quote or a space — holds for the byte-accurate encoding too. -/
def pyQuote (s : String) : String := String.mk (s.data.flatMap pyQuoteChar)

/-! ## The Field Reference Extractor (`_extract_fields_from_text`)

The source applies `re.findall(r'\b([A-Za-z][A-Za-z0-9_]*__c)\b', text)`.
Semantics of that regex, for ASCII text (Python's `\b`/`\w` are
Unicode-aware; every input the claims mention is ASCII):
a match must start at a word boundary with a letter, may continue with word
characters, must end in the literal `__c`, and must be followed by a word
boundary.  Because `__c` consists of word characters, the trailing `\b`
forces every match to extend to the end of a maximal run of word
characters, and the leading `\b` forces it to start at the beginning of
such a run.  So `findall` returns, in order, exactly the maximal
word-character runs that start with a letter and end with `__c`. -/

/-- Word character of the regex class `[A-Za-z0-9_]` (Python `\w` for
ASCII). -/
def isWordChar (c : Char) : Bool := c.isAlphanum || c = '_'

/-- Scanner splitting a character list into maximal runs of word
characters; `cur` holds the current run, reversed. -/
def wordRunsAux : List Char → List Char → List String
  | [], cur => if cur = [] then [] else [String.mk cur.reverse]
  | c :: rest, cur =>
    if isWordChar c then wordRunsAux rest (c :: cur)
    else if cur = [] then wordRunsAux rest []
    else String.mk cur.reverse :: wordRunsAux rest []

/-- The maximal word-character runs of `text`, in order. -/
def wordRuns (text : String) : List String := wordRunsAux text.data []

/-- A token matching `[A-Za-z][A-Za-z0-9_]*__c`: non-empty, starts with a
letter, all word characters, ends in the literal suffix `__c`. -/
def isCustomFieldToken (s : String) : Bool :=
  match s.data with
  | [] => false
  | c :: _ => c.isAlpha && s.data.all isWordChar && pyEndsWith "__c" s

/-- `_extract_fields_from_text(text, object_name)`: `re.findall` of the
custom-field pattern over `text` (see the regex semantics above).  Note the
source never uses its `object_name` parameter. -/
def extract_fields_from_text (text : String) (object_name : String) : List String :=
  (wordRuns text).filter isCustomFieldToken

/-! ## Record shapes and query outcomes

Each record structure holds exactly the keys the collector reads (read with
`.get(key, default)` in the source, hence `Option` fields). -/

/-- The `Metadata` of a `ValidationRule` record. -/
structure VMeta where
  errorDisplayField : Option String := none
  errorConditionFormula : Option String := none

/-- A `ValidationRule` record (`SELECT ValidationName, Metadata ...`). -/
structure VRuleRecord where
  validationName : Option String := none
  metadata : Option VMeta := none

/-- An `ApexClass` or `ApexTrigger` record (`SELECT Name, Body ...`). -/
structure CodeRecord where
  name : Option String := none
  body : Option String := none

/-- An `ApexPage` or `ApexComponent` record (`SELECT Name, Markup ...`). -/
structure MarkupRecord where
  name : Option String := none
  markup : Option String := none

/-- A `Layout` record (`SELECT Id, Name, EntityDefinitionId ...`). -/
structure LayoutRecord where
  id : Option String := none
  name : Option String := none

/-- One field of an `sobject.describe()` result. -/
structure DescField where
  name : Option String := none

/-- Outcome of one remote query, as a collector sees it:
`ok records` — the call succeeded; `queryError msg` — the call raised (for
the five collectors going through `_tooling_query` the exception is caught
THERE and `{'records': []}` is returned; for the page-layout collector's
direct `restful` call it is caught by the collector's own `try`);
`procError msg processed` — the call succeeded but an exception was raised
while iterating the records, after `processed` of them were handled (caught
by the collector's `try`, which returns the partial mapping accumulated so
far). -/
inductive QOutcome (ρ : Type) : Type where
  | ok (records : List ρ)
  | queryError (msg : String)
  | procError (msg : String) (processed : List ρ)

/-- The records a collector's loop actually processes to completion under
each outcome. -/
def QOutcome.records {ρ : Type} : QOutcome ρ → List ρ
  | .ok l => l
  | .queryError _ => []
  | .procError _ l => l

/-! ## Collector outputs and the per-field usage maps

Source method names are kept without their leading underscore (Lean setup). -/

/-- A collector's output: `field_key -> set of entity names`
(`Dict[str, Set[str]]`), the set as a duplicate-free list. -/
abbrev Usage := List (String × List String)

/-- One field's aggregated entry: `category -> list of entity names`. -/
abbrev Entry := List (String × List String)

/-- `ObjectUsageIndex`: `field_key -> Entry` (the inner value of
`self.usage_cache`). -/
abbrev Index := List (String × Entry)

/-- The idiom
`if field_key not in field_usage: field_usage[field_key] = set()` followed
by `field_usage[field_key].add(name)`, used by every collector. -/
def addEntity (field_usage : Usage) (field_key name : String) : Usage :=
  alUpsert field_usage field_key (fun cur =>
    let s := cur.getD []
    if name ∈ s then s else s ++ [name])

/-- `_get_validation_rule_usage(object_name)`, given the outcome of its
tooling query. -/
def get_validation_rule_usage (object_name : String) (q : QOutcome VRuleRecord) : Usage :=
  q.records.foldl (fun field_usage rule =>
    let rule_name := rule.validationName.getD ""
    match rule.metadata with
    | none => field_usage
    | some metadata =>
      let fu₁ :=
        match metadata.errorDisplayField with
        | some error_field =>
          if error_field ≠ "" then
            addEntity field_usage (object_name ++ "." ++ error_field) rule_name
          else field_usage
        | none => field_usage
      let formula := metadata.errorConditionFormula.getD ""
      if formula ≠ "" then
        (extract_fields_from_text formula object_name).foldl
          (fun fu field => addEntity fu (object_name ++ "." ++ field) rule_name) fu₁
      else fu₁) []

/-- The field-name list `[field.get('name', '') for field in
obj_describe['fields']]`. -/
def describeFieldNames (fields : List DescField) : List String :=
  fields.map (fun f => f.name.getD "")

/-- `_get_apex_usage(object_name)`: records with a non-empty body that
contains `object_name` as a substring; every known field name contained in
the body is credited to the class.  A failed `describe()` raises before the
loop, so the collector's `try` returns the empty mapping. -/
def get_apex_usage (object_name : String) (q : QOutcome CodeRecord)
    (describe : Except String (List DescField)) : Usage :=
  match describe with
  | .error _ => []
  | .ok fields =>
    let field_names := describeFieldNames fields
    q.records.foldl (fun field_usage apex_class =>
      let class_name := apex_class.name.getD ""
      let body := apex_class.body.getD ""
      if body = "" then field_usage
      else if pyIn object_name body = false then field_usage
      else
        field_names.foldl (fun fu field_name =>
          if pyIn field_name body then
            addEntity fu (object_name ++ "." ++ field_name) class_name
          else fu) field_usage) []

/-- `_get_trigger_usage(object_name)`: unlike the Apex-class collector the
source has NO `if object_name not in body: continue` test here, and its
query carries no `LIMIT 500` (it filters by `TableEnumOrId` instead). -/
def get_trigger_usage (object_name : String) (q : QOutcome CodeRecord)
    (describe : Except String (List DescField)) : Usage :=
  match describe with
  | .error _ => []
  | .ok fields =>
    let field_names := describeFieldNames fields
    q.records.foldl (fun field_usage trigger =>
      let trigger_name := trigger.name.getD ""
      let body := trigger.body.getD ""
      if body = "" then field_usage
      else
        field_names.foldl (fun fu field_name =>
          if pyIn field_name body then
            addEntity fu (object_name ++ "." ++ field_name) trigger_name
          else fu) field_usage) []

/-- `_get_visualforce_page_usage(object_name)`: same shape as the
Apex-class collector, over `Markup`. -/
def get_visualforce_page_usage (object_name : String) (q : QOutcome MarkupRecord)
    (describe : Except String (List DescField)) : Usage :=
  match describe with
  | .error _ => []
  | .ok fields =>
    let field_names := describeFieldNames fields
    q.records.foldl (fun field_usage page =>
      let page_name := page.name.getD ""
      let markup := page.markup.getD ""
      if markup = "" then field_usage
      else if pyIn object_name markup = false then field_usage
      else
        field_names.foldl (fun fu field_name =>
          if pyIn field_name markup then
            addEntity fu (object_name ++ "." ++ field_name) page_name
          else fu) field_usage) []

/-- `_get_visualforce_component_usage(object_name)`. -/
def get_visualforce_component_usage (object_name : String) (q : QOutcome MarkupRecord)
    (describe : Except String (List DescField)) : Usage :=
  match describe with
  | .error _ => []
  | .ok fields =>
    let field_names := describeFieldNames fields
    q.records.foldl (fun field_usage component =>
      let comp_name := component.name.getD ""
      let markup := component.markup.getD ""
      if markup = "" then field_usage
      else if pyIn object_name markup = false then field_usage
      else
        field_names.foldl (fun fu field_name =>
          if pyIn field_name markup then
            addEntity fu (object_name ++ "." ++ field_name) comp_name
          else fu) field_usage) []

/-- `_get_page_layout_usage(object_name)`: the loop binds each layout's
name and id but never inserts into `field_usage` ("we'll note that the
layout exists but won't parse detailed field usage"), so the mapping stays
empty whatever the response. -/
def get_page_layout_usage (object_name : String) (q : QOutcome LayoutRecord) : Usage :=
  q.records.foldl (fun field_usage _layout => field_usage) []

/-- `_merge_usage_data(usage_data, field_usage, category)`: for each
`(field_key, items)`, ensure `usage_data[field_key]` and
`usage_data[field_key][category]` exist, then
`usage_data[field_key][category].extend(sorted(items))` — a LIST extend,
not a set union. -/
def merge_usage_data (usage_data : Index) (field_usage : Usage) (category : String) : Index :=
  field_usage.foldl (fun ud p =>
    alUpsert ud p.1 (fun e =>
      alUpsert (e.getD []) category (fun cur => cur.getD [] ++ pySorted p.2))) usage_data

/-! ## Query strings and request URLs -/

/-- `_tooling_query`'s request URL: the SOQL percent-encoded by
`urllib.parse.quote`. -/
def tooling_query_url (soql : String) : String := "tooling/query/?q=" ++ pyQuote soql

def validation_rule_soql (object_name : String) : String :=
  "SELECT ValidationName, Metadata FROM ValidationRule WHERE EntityDefinition.QualifiedApiName = '"
    ++ object_name ++ "'"

def apex_soql : String := "SELECT Name, Body FROM ApexClass LIMIT 500"

def trigger_soql (object_name : String) : String :=
  "SELECT Name, Body FROM ApexTrigger WHERE TableEnumOrId = '" ++ object_name ++ "'"

def vf_page_soql : String := "SELECT Name, Markup FROM ApexPage LIMIT 500"

def vf_component_soql : String := "SELECT Name, Markup FROM ApexComponent LIMIT 500"

/-- The page-layout collector's request URL, built BY HAND in the source
(`self.sf.restful(f'tooling/query/?q=SELECT+Id,...')`), bypassing
`_tooling_query`: spaces hand-replaced by `+`, the interpolated object name
and the surrounding single quotes not encoded at all. -/
def page_layout_url (object_name : String) : String :=
  "tooling/query/?q=SELECT+Id,Name,EntityDefinitionId+FROM+Layout+WHERE+EntityDefinitionId='"
    ++ object_name ++ "'"

/-! ## Environment, status-sink log lines -/

/-- A deterministic mock of the remote connection: each query a collector
issues is mapped to its outcome (queries embedding `object_name` get it as
an argument) and `getattr(self.sf, object_name).describe()` to its result
or exception. -/
structure SfEnv where
  vrOutcome : String → QOutcome VRuleRecord
  apexOutcome : QOutcome CodeRecord
  triggerOutcome : String → QOutcome CodeRecord
  vfPageOutcome : QOutcome MarkupRecord
  vfComponentOutcome : QOutcome MarkupRecord
  layoutOutcome : String → QOutcome LayoutRecord
  describe : String → Except String (List DescField)

/-- The line `_tooling_query`'s own `except` logs when the query call
raises (it then returns `{'records': []}` to the collector). -/
def tooling_error_log {ρ : Type} : QOutcome ρ → List String
  | .queryError msg => ["    ⚠ Tooling query error: " ++ msg]
  | _ => []

/-- Status lines of a collector that runs `_tooling_query` and then
`describe()`: a failed query logs inside `_tooling_query`; a failed
`describe()` or an exception in the record loop is caught by the
collector's own `try`, which logs `warn + str(e)`. -/
def code_collector_logs {ρ : Type} (warn : String) (q : QOutcome ρ)
    (describe : Except String (List DescField)) : List String :=
  tooling_error_log q ++
    match describe with
    | .error msg => [warn ++ msg]
    | .ok _ =>
      match q with
      | .procError msg _ => [warn ++ msg]
      | _ => []

/-- Status lines of the validation-rule collector (no `describe()` call). -/
def vr_logs (q : QOutcome VRuleRecord) : List String :=
  tooling_error_log q ++
    match q with
    | .procError msg _ => ["    ⚠ Could not query validation rules: " ++ msg]
    | _ => []

/-- Status lines of the page-layout collector: it calls `sf.restful`
directly (not `_tooling_query`), so a raised call is caught by its own
`try`. -/
def layout_logs (q : QOutcome LayoutRecord) : List String :=
  match q with
  | .ok _ => []
  | .queryError msg => ["    ⚠ Could not query page layouts: " ++ msg]
  | .procError msg _ => ["    ⚠ Could not query page layouts: " ++ msg]

/-- The six build steps of `_build_usage_cache_for_object`, in source
order: (collector output, category it is merged under, request URL, status
lines). -/
def buildSteps (env : SfEnv) (object_name : String) :
    List (Usage × String × String × List String) :=
  [ (get_validation_rule_usage object_name (env.vrOutcome object_name),
     "Validation Rules",
     tooling_query_url (validation_rule_soql object_name),
     vr_logs (env.vrOutcome object_name)),
    (get_apex_usage object_name env.apexOutcome (env.describe object_name),
     "Apex Classes",
     tooling_query_url apex_soql,
     code_collector_logs "    ⚠ Could not query Apex classes: "
       env.apexOutcome (env.describe object_name)),
    (get_trigger_usage object_name (env.triggerOutcome object_name) (env.describe object_name),
     "Apex Triggers",
     tooling_query_url (trigger_soql object_name),
     code_collector_logs "    ⚠ Could not query triggers: "
       (env.triggerOutcome object_name) (env.describe object_name)),
    (get_visualforce_page_usage object_name env.vfPageOutcome (env.describe object_name),
     "Visualforce Pages",
     tooling_query_url vf_page_soql,
     code_collector_logs "    ⚠ Could not query Visualforce pages: "
       env.vfPageOutcome (env.describe object_name)),
    (get_visualforce_component_usage object_name env.vfComponentOutcome
       (env.describe object_name),
     "Visualforce Components",
     tooling_query_url vf_component_soql,
     code_collector_logs "    ⚠ Could not query Visualforce components: "
       env.vfComponentOutcome (env.describe object_name)),
    (get_page_layout_usage object_name (env.layoutOutcome object_name),
     "Page Layouts",
     page_layout_url object_name,
     layout_logs (env.layoutOutcome object_name)) ]

/-- Fold `_merge_usage_data` over build steps, starting from the fresh
`usage_data = {}`. -/
def mergeAll (steps : List (Usage × String × String × List String)) : Index :=
  steps.foldl (fun ud s => merge_usage_data ud s.1 s.2.1) []

/-! ## Tracker state and the public entry point -/

/-- The mutable state of a `FieldUsageTracker` plus the observation trace:
`usage_cache` is the instance attribute; `urls` records every request URL
sent to the connection (`sf.restful`), in order; `log` records every
message passed to `_log_status`, in order. -/
structure TrackerState where
  usage_cache : List (String × Index) := []
  urls : List String := []
  log : List String := []

/-- `_build_usage_cache_for_object(object_name)`.
`interrupt = some (k, msg)` models an exception reaching the OUTER `try`
after the first `k` collector+merge steps completed (each collector catches
its own failures, so this path needs an unanticipated error such as the
status callback raising); `none` is the normal run.  On both paths the
accumulated `usage_data` is stored under `self.usage_cache[object_name]` —
the `except` branch performs the same assignment. -/
def build_usage_cache_for_object (env : SfEnv) (st : TrackerState) (object_name : String)
    (interrupt : Option (Nat × String)) : TrackerState :=
  let steps := buildSteps env object_name
  let k := match interrupt with | none => steps.length | some (j, _) => min j steps.length
  let done := steps.take k
  let usage_data := mergeAll done
  { usage_cache := alUpsert st.usage_cache object_name (fun _ => usage_data),
    urls := st.urls ++ done.map (fun s => s.2.2.1),
    log := st.log ++ ["  Building field usage cache for " ++ object_name ++ "..."]
      ++ (done.map (fun s => s.2.2.2)).flatten
      ++ (match interrupt with
          | none => ["  ✅ Usage cache built"]
          | some (_, msg) =>
            ["  ⚠ Warning: Could not build complete usage cache: " ++ msg]) }

/-- The fixed display order of the six categories (`section_order` in the
source). -/
def section_order : List String :=
  ["Page Layouts", "Validation Rules", "Apex Classes", "Apex Triggers",
   "Visualforce Pages", "Visualforce Components"]

/-- The `formatted_sections` list built by the formatting loop of
`get_field_usage`: for each section of `section_order` that is present and
non-empty, the section name, then `- item` for each item of
`sorted(usage_data[section])`, then an empty separator line. -/
def formatted_sections (usage_data : Entry) : List String :=
  section_order.foldl (fun acc s =>
    match alGet usage_data s with
    | some items =>
      if items ≠ [] then
        acc ++ ([s] ++ (pySorted items).map (fun item => "- " ++ item) ++ [""])
      else acc
    | none => acc) []

/-- `"\n".join(formatted_sections).strip()` (Python `str.strip()` removes
whitespace from both ends; only trailing whitespace can occur here since
the first emitted line is a section name). -/
def format_usage (usage_data : Entry) : String :=
  pyStrip (pyJoin "\n" (formatted_sections usage_data))

/-- `get_field_usage(object_name, field_api_name)`: build the cache on a
miss, look up `f"{object_name}.{field_api_name}"`, return `""` when the
entry is absent or empty, else the formatted report.  Returns the output
together with the updated state. -/
def get_field_usage (env : SfEnv) (st : TrackerState) (object_name field_api_name : String)
    (interrupt : Option (Nat × String)) : String × TrackerState :=
  let st :=
    if (alGet st.usage_cache object_name).isSome then st
    else build_usage_cache_for_object env st object_name interrupt
  let field_key := object_name ++ "." ++ field_api_name
  let usage_data := alGetD (alGetD st.usage_cache object_name []) field_key []
  if usage_data = [] then ("", st)
  else (format_usage usage_data, st)

/-! ## Generic fold helpers -/

/-- An invariant preserved by every step survives a `foldl`. -/
theorem foldl_inv {α β : Type} {P : α → Prop} {f : α → β → α} {l : List β} {init : α}
    (h0 : P init) (hstep : ∀ a b, P a → P (f a b)) : P (l.foldl f init) := by
  induction l generalizing init with
  | nil => exact h0
  | cons b t ih => exact ih (hstep init b h0)

/-- A `foldl` whose step appends a block per element is the initial
accumulator followed by the `flatMap` of the blocks. -/
theorem foldl_eq_append_flatMap {β : Type} (f : List String → β → List String)
    (g : β → List String) (hf : ∀ a b, f a b = a ++ g b) (l : List β) (acc : List String) :
    l.foldl f acc = acc ++ l.flatMap g := by
  induction l generalizing acc with
  | nil => simp
  | cons b t ih => simp [hf, ih, List.flatMap_cons, List.append_assoc]

/-! ## Well-formedness of collector outputs

Every collector builds its mapping with `addEntity` starting from `{}`:
keys are unique, and every value is a non-empty duplicate-free set. -/

/-- The invariant every collector output enjoys. -/
def usageWF (u : Usage) : Prop :=
  (alKeys u).Nodup ∧ ∀ p ∈ u, p.2 ≠ [] ∧ p.2.Nodup

theorem usageWF_nil : usageWF [] := ⟨List.nodup_nil, by simp⟩

theorem addEntity_wf {u : Usage} {k n : String} (h : usageWF u) : usageWF (addEntity u k n) := by
  obtain ⟨hkeys, hvals⟩ := h
  unfold addEntity
  refine ⟨alKeys_upsert_nodup k _ hkeys, ?_⟩
  apply alUpsert_values (P := fun v => v ≠ [] ∧ v.Nodup) hvals
  · simp
  · intro v hv
    by_cases hn : n ∈ v
    · simpa [hn] using hv
    · have hnd : (v ++ [n]).Nodup := by
        simp [List.nodup_append, hv.2, hn]
      exact ⟨by simp [hn], by simpa [hn] using hnd⟩

/-- A step that either keeps the accumulator or applies `addEntity`
preserves well-formedness; packaged for the nested collector loops. -/
theorem foldl_addEntity_wf {β : Type} {step : Usage → β → Usage} {l : List β} {init : Usage}
    (h0 : usageWF init)
    (hstep : ∀ a b, usageWF a → usageWF (step a b)) : usageWF (l.foldl step init) :=
  foldl_inv h0 hstep

theorem get_validation_rule_usage_wf (o : String) (q : QOutcome VRuleRecord) :
    usageWF (get_validation_rule_usage o q) := by
  unfold get_validation_rule_usage
  apply foldl_addEntity_wf usageWF_nil
  intro a r ha
  dsimp only
  split
  · exact ha
  · next metadata _ =>
    have h₁ : usageWF (match metadata.errorDisplayField with
        | some error_field =>
          if error_field ≠ "" then
            addEntity a (o ++ "." ++ error_field) (r.validationName.getD "")
          else a
        | none => a) := by
      split
      · split
        · exact addEntity_wf ha
        · exact ha
      · exact ha
    split
    · exact foldl_addEntity_wf h₁ (fun fu field hfu => addEntity_wf hfu)
    · exact h₁

theorem get_apex_usage_wf (o : String) (q : QOutcome CodeRecord)
    (d : Except String (List DescField)) : usageWF (get_apex_usage o q d) := by
  unfold get_apex_usage
  split
  · exact usageWF_nil
  · apply foldl_addEntity_wf usageWF_nil
    intro a r ha
    dsimp only
    split
    · exact ha
    · split
      · exact ha
      · refine foldl_addEntity_wf ha (fun fu f hfu => ?_)
        dsimp only
        split
        · exact addEntity_wf hfu
        · exact hfu

theorem get_trigger_usage_wf (o : String) (q : QOutcome CodeRecord)
    (d : Except String (List DescField)) : usageWF (get_trigger_usage o q d) := by
  unfold get_trigger_usage
  split
  · exact usageWF_nil
  · apply foldl_addEntity_wf usageWF_nil
    intro a r ha
    dsimp only
    split
    · exact ha
    · refine foldl_addEntity_wf ha (fun fu f hfu => ?_)
      dsimp only
      split
      · exact addEntity_wf hfu
      · exact hfu

theorem get_visualforce_page_usage_wf (o : String) (q : QOutcome MarkupRecord)
    (d : Except String (List DescField)) : usageWF (get_visualforce_page_usage o q d) := by
  unfold get_visualforce_page_usage
  split
  · exact usageWF_nil
  · apply foldl_addEntity_wf usageWF_nil
    intro a r ha
    dsimp only
    split
    · exact ha
    · split
      · exact ha
      · refine foldl_addEntity_wf ha (fun fu f hfu => ?_)
        dsimp only
        split
        · exact addEntity_wf hfu
        · exact hfu

theorem get_visualforce_component_usage_wf (o : String) (q : QOutcome MarkupRecord)
    (d : Except String (List DescField)) : usageWF (get_visualforce_component_usage o q d) := by
  unfold get_visualforce_component_usage
  split
  · exact usageWF_nil
  · apply foldl_addEntity_wf usageWF_nil
    intro a r ha
    dsimp only
    split
    · exact ha
    · split
      · exact ha
      · refine foldl_addEntity_wf ha (fun fu f hfu => ?_)
        dsimp only
        split
        · exact addEntity_wf hfu
        · exact hfu

theorem foldl_const {α β : Type} (l : List β) (init : α) :
    l.foldl (fun a _ => a) init = init := by
  induction l generalizing init with
  | nil => rfl
  | cons b t ih => exact ih init

theorem get_page_layout_usage_eq_nil (o : String) (q : QOutcome LayoutRecord) :
    get_page_layout_usage o q = [] :=
  foldl_const q.records []

theorem buildSteps_wf (env : SfEnv) (o : String) :
    ∀ s ∈ buildSteps env o, usageWF s.1 := by
  intro s hs
  simp only [buildSteps, List.mem_cons, List.not_mem_nil, or_false] at hs
  rcases hs with rfl | rfl | rfl | rfl | rfl | rfl
  · exact get_validation_rule_usage_wf o _
  · exact get_apex_usage_wf o _ _
  · exact get_trigger_usage_wf o _ _
  · exact get_visualforce_page_usage_wf o _ _
  · exact get_visualforce_component_usage_wf o _ _
  · simpa [get_page_layout_usage_eq_nil] using usageWF_nil

/-! ## Looking up the merged index -/

/-- `usage_cache[obj].get(field_key, {}).get(category)`: entry-level lookup
in an `Index`. -/
def idxGet (ud : Index) (fk c : String) : Option (List String) :=
  (alGet ud fk).bind (fun e => alGet e c)

/-- The same with `{}`/`[]` defaults applied. -/
def idxGetD (ud : Index) (fk c : String) : List String := (idxGet ud fk c).getD []

/-- One `_merge_usage_data` iteration (`ensure dict / ensure list / extend`)
changes exactly the `(fk, c)` slot, appending `items` to it. -/
theorem idxGet_extend (ud : Index) (fk c : String) (items : List String) (fk' c' : String) :
    idxGet (alUpsert ud fk (fun e =>
        alUpsert (e.getD []) c (fun cur => cur.getD [] ++ items))) fk' c' =
      if fk = fk' ∧ c = c' then some (idxGetD ud fk c ++ items) else idxGet ud fk' c' := by
  by_cases h1 : fk = fk' <;> by_cases h2 : c = c' <;>
    cases ho : alGet ud fk' <;>
      simp [idxGet, idxGetD, alGet_upsert, h1, h2, ho]

theorem idxGetD_extend (ud : Index) (fk c : String) (items : List String) (fk' c' : String) :
    idxGetD (alUpsert ud fk (fun e =>
        alUpsert (e.getD []) c (fun cur => cur.getD [] ++ items))) fk' c' =
      if fk = fk' ∧ c = c' then idxGetD ud fk c ++ items else idxGetD ud fk' c' := by
  unfold idxGetD
  rw [idxGet_extend]
  by_cases h : fk = fk' ∧ c = c' <;> simp [h, idxGetD]

/-- `_merge_usage_data` through `idxGet`: merging `u` under category `c`
appends `sorted(u[fk])` to the `(fk, c)` slot (creating it if needed) and
leaves every other slot alone.  Requires `u`'s keys unique, which every
collector output satisfies. -/
theorem idxGet_merge {u : Usage} (hu : (alKeys u).Nodup) (ud : Index) (c fk c' : String) :
    idxGet (merge_usage_data ud u c) fk c' =
      if c = c' then
        (match alGet u fk with
         | some items => some (idxGetD ud fk c ++ pySorted items)
         | none => idxGet ud fk c')
      else idxGet ud fk c' := by
  induction u generalizing ud with
  | nil => by_cases h : c = c' <;> simp [merge_usage_data, h]
  | cons p t ih =>
    obtain ⟨k0, items0⟩ := p
    simp only [alKeys, List.map_cons, List.nodup_cons] at hu
    have hstep : merge_usage_data ud ((k0, items0) :: t) c =
        merge_usage_data (alUpsert ud k0 (fun e => alUpsert (e.getD []) c
          (fun cur => cur.getD [] ++ pySorted items0))) t c := rfl
    rw [hstep, ih hu.2]
    by_cases hc : c = c'
    · subst hc
      by_cases hk : k0 = fk
      · subst hk
        have ht : alGet t k0 = none := (alGet_eq_none_iff t k0).mpr hu.1
        simp [ht, idxGet_extend, idxGetD]
      · cases htk : alGet t fk with
        | some items => simp [hk, htk, idxGetD_extend, Ne.symm hk]
        | none => simp [hk, htk, idxGet_extend]
    · simp [hc, idxGet_extend]

/-- One build step as carried by `buildSteps`: collector output, category,
request URL, status lines. -/
abbrev BuildStep := Usage × String × String × List String

/-- The contributions to the `(fk, c)` slot: for each step whose category
is `c` and whose collector output binds `fk`, that step's set of entity
names, in step order. -/
def contribs (steps : List BuildStep) (fk c : String) : List (List String) :=
  steps.filterMap (fun s => if s.2.1 = c then alGet s.1 fk else none)

/-- Folding `_merge_usage_data` over steps, observed at one `(fk, c)`
slot: the slot ends up holding its initial content followed by the
`sorted(...)` image of each contribution, in step order; a slot nobody
contributes to is untouched. -/
theorem idxGet_mergeAll_from (steps : List BuildStep)
    (hWF : ∀ s ∈ steps, (alKeys s.1).Nodup) (ud : Index) (fk c : String) :
    idxGet (steps.foldl (fun ud s => merge_usage_data ud s.1 s.2.1) ud) fk c =
      if contribs steps fk c = [] then idxGet ud fk c
      else some (idxGetD ud fk c ++ ((contribs steps fk c).map pySorted).flatten) := by
  induction steps generalizing ud with
  | nil => simp [contribs]
  | cons s t ih =>
    have hs : (alKeys s.1).Nodup := hWF s (by simp)
    have hWFt : ∀ s' ∈ t, (alKeys s'.1).Nodup := fun s' h => hWF s' (by simp [h])
    have hfold : (s :: t).foldl (fun ud s => merge_usage_data ud s.1 s.2.1) ud =
        t.foldl (fun ud s => merge_usage_data ud s.1 s.2.1) (merge_usage_data ud s.1 s.2.1) :=
      rfl
    rw [hfold, ih hWFt]
    by_cases hc : s.2.1 = c
    · cases ha : alGet s.1 fk with
      | some items =>
        have hcontribs : contribs (s :: t) fk c = items :: contribs t fk c := by
          simp [contribs, hc, ha]
        have h1 : idxGet (merge_usage_data ud s.1 s.2.1) fk c =
            some (idxGetD ud fk c ++ pySorted items) := by
          rw [idxGet_merge hs]; simp [hc, ha]
        have h2 : idxGetD (merge_usage_data ud s.1 s.2.1) fk c =
            idxGetD ud fk c ++ pySorted items := by
          simp [idxGetD, h1]
        by_cases ht : contribs t fk c = []
        · simp [hcontribs, ht, h1, h2]
        · simp [hcontribs, ht, h2, List.append_assoc]
      | none =>
        have hcontribs : contribs (s :: t) fk c = contribs t fk c := by
          simp [contribs, hc, ha]
        have h1 : idxGet (merge_usage_data ud s.1 s.2.1) fk c = idxGet ud fk c := by
          rw [idxGet_merge hs]; simp [hc, ha]
        have h2 : idxGetD (merge_usage_data ud s.1 s.2.1) fk c = idxGetD ud fk c := by
          simp [idxGetD, h1]
        simp [hcontribs, h1, h2]
    · have hcontribs : contribs (s :: t) fk c = contribs t fk c := by
        simp [contribs, hc]
      have h1 : idxGet (merge_usage_data ud s.1 s.2.1) fk c = idxGet ud fk c := by
        rw [idxGet_merge hs]; simp [hc]
      have h2 : idxGetD (merge_usage_data ud s.1 s.2.1) fk c = idxGetD ud fk c := by
        simp [idxGetD, h1]
      simp [hcontribs, h1, h2]

theorem idxGet_mergeAll (steps : List BuildStep)
    (hWF : ∀ s ∈ steps, (alKeys s.1).Nodup) (fk c : String) :
    idxGet (mergeAll steps) fk c =
      if contribs steps fk c = [] then none
      else some (((contribs steps fk c).map pySorted).flatten) := by
  have h := idxGet_mergeAll_from steps hWF [] fk c
  simpa [mergeAll, idxGet, idxGetD] using h

theorem mem_contribs {steps : List BuildStep} {fk c : String} {l : List String}
    (h : l ∈ contribs steps fk c) :
    ∃ s ∈ steps, s.2.1 = c ∧ alGet s.1 fk = some l := by
  rw [contribs, List.mem_filterMap] at h
  obtain ⟨s, hs, hf⟩ := h
  by_cases hc : s.2.1 = c
  · exact ⟨s, hs, hc, by simpa [hc] using hf⟩
  · simp [hc] at hf

theorem mem_flatten_contribs (steps : List BuildStep) (fk c : String) (x : String) :
    x ∈ (contribs steps fk c).flatten ↔
      ∃ s ∈ steps, s.2.1 = c ∧ x ∈ (alGet s.1 fk).getD [] := by
  rw [List.mem_flatten]
  constructor
  · rintro ⟨l, hl, hx⟩
    obtain ⟨s, hs, hc, ha⟩ := mem_contribs hl
    exact ⟨s, hs, hc, by simp [ha, hx]⟩
  · rintro ⟨s, hs, hc, hx⟩
    cases ha : alGet s.1 fk with
    | none => simp [ha] at hx
    | some items =>
      refine ⟨items, ?_, by simpa [ha] using hx⟩
      rw [contribs, List.mem_filterMap]
      exact ⟨s, hs, by simp [hc, ha]⟩

theorem contribs_eq_nil_of_not_mem {steps : List BuildStep} {c : String}
    (h : c ∉ steps.map (fun s => s.2.1)) (fk : String) : contribs steps fk c = [] := by
  induction steps with
  | nil => rfl
  | cons s t ih =>
    simp only [List.map_cons, List.mem_cons] at h
    push_neg at h
    have hne : ¬ s.2.1 = c := fun hc => h.1 hc.symm
    simpa [contribs, hne] using ih h.2

theorem contribs_length_le_one {steps : List BuildStep}
    (h : (steps.map (fun s => s.2.1)).Nodup) (fk c : String) :
    (contribs steps fk c).length ≤ 1 := by
  induction steps with
  | nil => simp [contribs]
  | cons s t ih =>
    simp only [List.map_cons, List.nodup_cons] at h
    by_cases hc : s.2.1 = c
    · have hnil : contribs t fk c = [] := contribs_eq_nil_of_not_mem (hc ▸ h.1) fk
      cases ha : alGet s.1 fk with
      | none =>
        have hcons : contribs (s :: t) fk c = contribs t fk c := by
          simp [contribs, hc, ha]
        simp [hcons, hnil]
      | some items =>
        have hcons : contribs (s :: t) fk c = items :: contribs t fk c := by
          simp [contribs, hc, ha]
        simp [hcons, hnil]
    · have hcons : contribs (s :: t) fk c = contribs t fk c := by
        simp [contribs, hc]
      rw [hcons]
      exact ih h.2

theorem flatten_map_pySorted_ne_nil {ls : List (List String)} (hne : ls ≠ [])
    (h : ∀ l ∈ ls, l ≠ []) : ((ls.map pySorted).flatten) ≠ [] := by
  cases ls with
  | nil => exact absurd rfl hne
  | cons l t =>
    have hl : pySorted l ≠ [] := pySorted_ne_nil (h l (by simp))
    cases hp : pySorted l with
    | nil => exact absurd hp hl
    | cons a u => simp [hp]

theorem mem_flatten_map_pySorted {x : String} {ls : List (List String)} :
    x ∈ (ls.map pySorted).flatten ↔ x ∈ ls.flatten := by
  induction ls with
  | nil => simp
  | cons l t ih => simp [mem_pySorted, ih]

/-! ## Facts about the build round -/

/-- The six request URLs of one full build round, in execution order. -/
def buildQueries (object_name : String) : List String :=
  [tooling_query_url (validation_rule_soql object_name),
   tooling_query_url apex_soql,
   tooling_query_url (trigger_soql object_name),
   tooling_query_url vf_page_soql,
   tooling_query_url vf_component_soql,
   page_layout_url object_name]

theorem buildSteps_urls (env : SfEnv) (o : String) :
    (buildSteps env o).map (fun s => s.2.2.1) = buildQueries o := rfl

theorem buildSteps_length (env : SfEnv) (o : String) : (buildSteps env o).length = 6 := rfl

theorem buildSteps_categories (env : SfEnv) (o : String) :
    (buildSteps env o).map (fun s => s.2.1) =
      ["Validation Rules", "Apex Classes", "Apex Triggers",
       "Visualforce Pages", "Visualforce Components", "Page Layouts"] := rfl

theorem buildSteps_categories_nodup (env : SfEnv) (o : String) :
    ((buildSteps env o).map (fun s => s.2.1)).Nodup := by
  rw [buildSteps_categories]
  decide

theorem buildSteps_take_categories_nodup (env : SfEnv) (o : String) (k : Nat) :
    (((buildSteps env o).take k).map (fun s => s.2.1)).Nodup := by
  rw [List.map_take]
  exact List.Nodup.sublist (List.take_sublist _ _) (buildSteps_categories_nodup env o)

theorem buildSteps_take_wf (env : SfEnv) (o : String) (k : Nat) :
    ∀ s ∈ (buildSteps env o).take k, usageWF s.1 :=
  fun s hs => buildSteps_wf env o s (List.take_subset _ _ hs)

theorem buildSteps_take_keys_nodup (env : SfEnv) (o : String) (k : Nat) :
    ∀ s ∈ (buildSteps env o).take k, (alKeys s.1).Nodup :=
  fun s hs => (buildSteps_take_wf env o k s hs).1

/-- How many of the six steps a run completes: all on the normal path,
`min j 6` when an exception escapes the outer `try` after `j` steps. -/
def buildK (i : Option (Nat × String)) : Nat :=
  match i with
  | none => 6
  | some (j, _) => min j 6

/-- What the build writes into the cache — on the normal AND on the
exception path. -/
theorem build_cache_lookup_self (env : SfEnv) (st : TrackerState) (o : String)
    (i : Option (Nat × String)) :
    alGet (build_usage_cache_for_object env st o i).usage_cache o =
      some (mergeAll ((buildSteps env o).take (buildK i))) := by
  unfold build_usage_cache_for_object buildK
  cases i with
  | none => simpa using alGet_upsert_self st.usage_cache o _
  | some p => simpa using alGet_upsert_self st.usage_cache o _

theorem build_cache_lookup_other (env : SfEnv) (st : TrackerState) (o o' : String)
    (i : Option (Nat × String)) (h : o ≠ o') :
    alGet (build_usage_cache_for_object env st o i).usage_cache o' =
      alGet st.usage_cache o' := by
  unfold build_usage_cache_for_object
  simpa using alGet_upsert_other st.usage_cache o _ o' h

theorem build_urls (env : SfEnv) (st : TrackerState) (o : String)
    (i : Option (Nat × String)) :
    (build_usage_cache_for_object env st o i).urls =
      st.urls ++ (buildQueries o).take (buildK i) := by
  have hmap : ∀ n, ((buildSteps env o).take n).map (fun s => s.2.2.1) =
      (buildQueries o).take n := by
    intro n
    rw [List.map_take, buildSteps_urls]
  cases i with
  | none =>
    show st.urls ++ ((buildSteps env o).take ((buildSteps env o).length)).map
        (fun s => s.2.2.1) = st.urls ++ (buildQueries o).take (buildK none)
    rw [hmap, buildSteps_length]
    rfl
  | some p =>
    show st.urls ++ ((buildSteps env o).take (min p.1 ((buildSteps env o).length))).map
        (fun s => s.2.2.1) = st.urls ++ (buildQueries o).take (buildK (some p))
    rw [hmap, buildSteps_length]
    rfl

/-- The lookup-and-format tail of `get_field_usage`, as a function of the
state it runs in. -/
def renderFromCache (st : TrackerState) (o f : String) : String :=
  let usage_data := alGetD (alGetD st.usage_cache o []) (o ++ "." ++ f) []
  if usage_data = [] then "" else format_usage usage_data

/-- `get_field_usage` splits into the state transition (cache hit keeps the
state, a miss builds) and a pure render of the resulting state. -/
theorem get_field_usage_pair (env : SfEnv) (st : TrackerState) (o f : String)
    (i : Option (Nat × String)) :
    get_field_usage env st o f i =
      (renderFromCache (if (alGet st.usage_cache o).isSome then st
                        else build_usage_cache_for_object env st o i) o f,
       if (alGet st.usage_cache o).isSome then st
       else build_usage_cache_for_object env st o i) := by
  unfold get_field_usage renderFromCache
  by_cases hc : (alGet st.usage_cache o).isSome
  · simp only [hc, if_true]
    by_cases hud : alGetD (alGetD st.usage_cache o []) (o ++ "." ++ f) [] = []
    · rw [if_pos hud, if_pos hud]
    · rw [if_neg hud, if_neg hud]
  · simp only [hc, Bool.false_eq_true, if_false]
    by_cases hud : alGetD (alGetD (build_usage_cache_for_object env st o i).usage_cache o [])
        (o ++ "." ++ f) [] = []
    · rw [if_pos hud, if_pos hud]
    · rw [if_neg hud, if_neg hud]

/-! ## The formatter as a per-section flat map -/

/-- The block one section contributes to the formatted report: the section
name, one `- item` line per sorted entity name, and a blank separator;
nothing when the section is absent or empty. -/
def section_block (usage_data : Entry) (s : String) : List String :=
  match alGet usage_data s with
  | some items =>
    if items ≠ [] then [s] ++ (pySorted items).map (fun item => "- " ++ item) ++ [""]
    else []
  | none => []

/-- The formatting loop emits exactly the concatenation of the section
blocks, in the fixed `section_order`. -/
theorem formatted_sections_eq_flatMap (usage_data : Entry) :
    formatted_sections usage_data = section_order.flatMap (section_block usage_data) := by
  have h := foldl_eq_append_flatMap
    (fun acc s => match alGet usage_data s with
      | some items =>
        if items ≠ [] then
          acc ++ ([s] ++ (pySorted items).map (fun item => "- " ++ item) ++ [""])
        else acc
      | none => acc)
    (section_block usage_data) ?_ section_order []
  · simpa [formatted_sections] using h
  · intro a b
    unfold section_block
    cases hb : alGet usage_data b with
    | none => simp [hb]
    | some items =>
      by_cases hne : items = []
      · simp [hb, hne]
      · simp [hb, hne]

/-! ## Percent-encoding facts -/

theorem hexUpper_ne_quote {n : Nat} (h : n < 16) : hexUpper n ≠ '\'' := by
  interval_cases n <;> decide

theorem pyQuoteChar_no_quote (c : Char) : '\'' ∉ pyQuoteChar c := by
  unfold pyQuoteChar
  split
  · next hsafe =>
    simp only [List.mem_singleton]
    intro h
    rw [← h] at hsafe
    exact absurd hsafe (by decide)
  · intro h
    simp only [List.mem_cons, List.not_mem_nil, or_false] at h
    rcases h with h | h | h
    · exact absurd h (by decide)
    · exact hexUpper_ne_quote (Nat.mod_lt _ (by decide)) h.symm
    · exact hexUpper_ne_quote (Nat.mod_lt _ (by decide)) h.symm

/-- `urllib.parse.quote` output never contains a single-quote character. -/
theorem pyQuote_no_quote (s : String) : '\'' ∉ (pyQuote s).data := by
  unfold pyQuote
  intro h
  rw [show (String.mk (s.data.flatMap pyQuoteChar)).data = s.data.flatMap pyQuoteChar from rfl,
    List.mem_flatMap] at h
  obtain ⟨c, _, hc⟩ := h
  exact pyQuoteChar_no_quote c hc

/-- The hand-built page-layout URL always contains a raw single quote. -/
theorem quote_mem_page_layout_url (o : String) : '\'' ∈ (page_layout_url o).data := by
  unfold page_layout_url
  rw [String.data_append]
  apply List.mem_append_right
  decide

/-! ## A concrete test environment (used by the witnesses) -/

def ruleW : VRuleRecord :=
  { validationName := some "Rule1",
    metadata := some { errorDisplayField := some "Status__c",
                       errorConditionFormula := some "if (Account__c.Status__c == 'X')" } }

def envW : SfEnv where
  vrOutcome := fun _ => .ok [ruleW]
  apexOutcome := .ok [{ name := some "ClassA", body := some "Account uses Status__c here" },
                      { name := some "ClassB", body := some "no object here Status__c" }]
  triggerOutcome := fun _ => .ok [{ name := some "Trig1", body := some "Status__c only" }]
  vfPageOutcome := .ok []
  vfComponentOutcome := .ok []
  layoutOutcome := fun _ => .ok [{ id := some "L1", name := some "Layout One" }]
  describe := fun _ => .ok [{ name := some "Status__c" }, { name := some "Other__c" }]

/-! ## Membership characterization of the direct-match collectors -/

theorem alGet_mem {α : Type} {l : List (String × α)} {k : String} {v : α}
    (h : alGet l k = some v) : (k, v) ∈ l := by
  induction l with
  | nil => simp [alGet] at h
  | cons p t ih =>
    obtain ⟨k0, v0⟩ := p
    by_cases hk : k0 = k
    · subst hk
      rw [alGet_cons, if_pos rfl] at h
      obtain rfl := Option.some_inj.mp h
      exact List.mem_cons_self _ _
    · simp only [alGet_cons, if_neg hk] at h
      exact List.mem_cons_of_mem _ (ih h)

theorem key_cancel (o f f' : String) : o ++ "." ++ f' = o ++ "." ++ f ↔ f' = f := by
  constructor
  · intro h
    have hd := congrArg String.data h
    rw [String.data_append, String.data_append] at hd
    exact String.ext (List.append_cancel_left hd)
  · intro h
    rw [h]

/-- What `addEntity` does to each slot, membership-wise. -/
theorem mem_addEntity (fu : Usage) (k n k' x : String) :
    x ∈ (alGet (addEntity fu k n) k').getD [] ↔
      x ∈ (alGet fu k').getD [] ∨ (k' = k ∧ x = n) := by
  unfold addEntity
  rw [alGet_upsert]
  by_cases hk : k = k'
  · subst hk
    cases h : alGet fu k with
    | none => simp [h]
    | some s =>
      by_cases hn : n ∈ s
      · simp only [if_pos rfl, h, Option.getD_some, hn, if_true, true_and]
        constructor
        · exact Or.inl
        · rintro (hx | rfl)
          · exact hx
          · exact hn
      · simp only [if_pos rfl, h, Option.getD_some, hn, if_false, true_and]
        simp [List.mem_append]
  · have hk' : ¬ k' = k := fun h => hk h.symm
    simp [hk, hk']

/-- The inner `for field_name in field_names` loop, membership-wise. -/
theorem mem_field_loop (o text ename : String) (field_names : List String) (fu0 : Usage)
    (k x : String) :
    x ∈ (alGet (field_names.foldl (fun fu field_name =>
          if pyIn field_name text then addEntity fu (o ++ "." ++ field_name) ename else fu)
        fu0) k).getD [] ↔
      x ∈ (alGet fu0 k).getD [] ∨
        ∃ f ∈ field_names, k = o ++ "." ++ f ∧ pyIn f text = true ∧ x = ename := by
  induction field_names generalizing fu0 with
  | nil => simp
  | cons f t ih =>
    rw [List.foldl_cons, ih]
    rw [List.exists_mem_cons_iff]
    by_cases hf : pyIn f text
    · rw [if_pos hf, mem_addEntity]
      constructor
      · rintro ((h | ⟨hk, hx⟩) | h)
        · exact Or.inl h
        · exact Or.inr (Or.inl ⟨hk, hf, hx⟩)
        · exact Or.inr (Or.inr h)
      · rintro (h | ⟨hk, _, hx⟩ | h)
        · exact Or.inl (Or.inl h)
        · exact Or.inl (Or.inr ⟨hk, hx⟩)
        · exact Or.inr h
    · rw [if_neg hf]
      constructor
      · rintro (h | h)
        · exact Or.inl h
        · exact Or.inr (Or.inr h)
      · rintro (h | ⟨_, hpy, _⟩ | h)
        · exact Or.inl h
        · exact absurd hpy (by simpa using hf)
        · exact Or.inr h

/-- Membership in the Apex-class collector's output: `x` is recorded under
`FieldKey(o, f)` exactly when `f` is a known field name and some fetched
class named `x` has a non-empty body containing both `o` and `f` as
substrings. -/
theorem mem_get_apex_usage (o : String) (recs : List CodeRecord) (fields : List DescField)
    (f x : String) :
    x ∈ (alGet (get_apex_usage o (.ok recs) (.ok fields)) (o ++ "." ++ f)).getD [] ↔
      f ∈ describeFieldNames fields ∧ ∃ r ∈ recs, r.name.getD "" = x ∧
        r.body.getD "" ≠ "" ∧ pyIn o (r.body.getD "") = true ∧
        pyIn f (r.body.getD "") = true := by
  unfold get_apex_usage
  dsimp only
  have main : ∀ fu0 : Usage,
      x ∈ (alGet (recs.foldl (fun field_usage apex_class =>
            if apex_class.body.getD "" = "" then field_usage
            else if pyIn o (apex_class.body.getD "") = false then field_usage
            else (describeFieldNames fields).foldl (fun fu field_name =>
              if pyIn field_name (apex_class.body.getD "") then
                addEntity fu (o ++ "." ++ field_name) (apex_class.name.getD "")
              else fu) field_usage)
          fu0) (o ++ "." ++ f)).getD [] ↔
        x ∈ (alGet fu0 (o ++ "." ++ f)).getD [] ∨
          (f ∈ describeFieldNames fields ∧ ∃ r ∈ recs, r.name.getD "" = x ∧
            r.body.getD "" ≠ "" ∧ pyIn o (r.body.getD "") = true ∧
            pyIn f (r.body.getD "") = true) := by
    induction recs with
    | nil => simp
    | cons r t ih =>
      intro fu0
      rw [List.foldl_cons]
      by_cases hb : r.body.getD "" = ""
      · rw [if_pos hb, ih]
        constructor
        · rintro (h | ⟨hfm, rr, hrr, hrest⟩)
          · exact Or.inl h
          · exact Or.inr ⟨hfm, rr, List.mem_cons_of_mem _ hrr, hrest⟩
        · rintro (h | ⟨hfm, rr, hrr, hname, hne, hrest⟩)
          · exact Or.inl h
          · rcases List.mem_cons.mp hrr with rfl | hrr'
            · exact absurd hb hne
            · exact Or.inr ⟨hfm, rr, hrr', hname, hne, hrest⟩
      · rw [if_neg hb]
        by_cases ho : pyIn o (r.body.getD "") = false
        · rw [if_pos ho, ih]
          constructor
          · rintro (h | ⟨hfm, rr, hrr, hrest⟩)
            · exact Or.inl h
            · exact Or.inr ⟨hfm, rr, List.mem_cons_of_mem _ hrr, hrest⟩
          · rintro (h | ⟨hfm, rr, hrr, hname, hne, hino, hinf⟩)
            · exact Or.inl h
            · rcases List.mem_cons.mp hrr with rfl | hrr'
              · rw [ho] at hino
                exact absurd hino (by decide)
              · exact Or.inr ⟨hfm, rr, hrr', hname, hne, hino, hinf⟩
        · rw [if_neg ho, ih, mem_field_loop]
          have hino : pyIn o (r.body.getD "") = true := by
            cases hpy : pyIn o (r.body.getD "")
            · exact absurd hpy ho
            · rfl
          constructor
          · rintro ((h | ⟨fn, hfn, hkey, hpy, hx⟩) | ⟨hfm, rr, hrr, hrest⟩)
            · exact Or.inl h
            · have hfeq : fn = f := (key_cancel o f fn).mp hkey.symm
              subst hfeq
              exact Or.inr ⟨hfn, r, List.mem_cons_self _ _, hx.symm, hb, hino, hpy⟩
            · exact Or.inr ⟨hfm, rr, List.mem_cons_of_mem _ hrr, hrest⟩
          · rintro (h | ⟨hfm, rr, hrr, hname, hne, hino', hinf⟩)
            · exact Or.inl (Or.inl h)
            · rcases List.mem_cons.mp hrr with rfl | hrr'
              · exact Or.inl (Or.inr ⟨f, hfm, rfl, hinf, hname.symm⟩)
              · exact Or.inr ⟨hfm, rr, hrr', hname, hne, hino', hinf⟩
  have h := main []
  simpa using h

/-- Membership in the trigger collector's output: the same, EXCEPT that no
containment of the object name in the body is required (and the query is
filtered by `TableEnumOrId` with no `LIMIT`). -/
theorem mem_get_trigger_usage (o : String) (recs : List CodeRecord) (fields : List DescField)
    (f x : String) :
    x ∈ (alGet (get_trigger_usage o (.ok recs) (.ok fields)) (o ++ "." ++ f)).getD [] ↔
      f ∈ describeFieldNames fields ∧ ∃ r ∈ recs, r.name.getD "" = x ∧
        r.body.getD "" ≠ "" ∧ pyIn f (r.body.getD "") = true := by
  unfold get_trigger_usage
  dsimp only
  have main : ∀ fu0 : Usage,
      x ∈ (alGet (recs.foldl (fun field_usage trigger =>
            if trigger.body.getD "" = "" then field_usage
            else (describeFieldNames fields).foldl (fun fu field_name =>
              if pyIn field_name (trigger.body.getD "") then
                addEntity fu (o ++ "." ++ field_name) (trigger.name.getD "")
              else fu) field_usage)
          fu0) (o ++ "." ++ f)).getD [] ↔
        x ∈ (alGet fu0 (o ++ "." ++ f)).getD [] ∨
          (f ∈ describeFieldNames fields ∧ ∃ r ∈ recs, r.name.getD "" = x ∧
            r.body.getD "" ≠ "" ∧ pyIn f (r.body.getD "") = true) := by
    induction recs with
    | nil => simp
    | cons r t ih =>
      intro fu0
      rw [List.foldl_cons]
      by_cases hb : r.body.getD "" = ""
      · rw [if_pos hb, ih]
        constructor
        · rintro (h | ⟨hfm, rr, hrr, hrest⟩)
          · exact Or.inl h
          · exact Or.inr ⟨hfm, rr, List.mem_cons_of_mem _ hrr, hrest⟩
        · rintro (h | ⟨hfm, rr, hrr, hname, hne, hrest⟩)
          · exact Or.inl h
          · rcases List.mem_cons.mp hrr with rfl | hrr'
            · exact absurd hb hne
            · exact Or.inr ⟨hfm, rr, hrr', hname, hne, hrest⟩
      · rw [if_neg hb, ih, mem_field_loop]
        constructor
        · rintro ((h | ⟨fn, hfn, hkey, hpy, hx⟩) | ⟨hfm, rr, hrr, hrest⟩)
          · exact Or.inl h
          · have hfeq : fn = f := (key_cancel o f fn).mp hkey.symm
            subst hfeq
            exact Or.inr ⟨hfn, r, List.mem_cons_self _ _, hx.symm, hb, hpy⟩
          · exact Or.inr ⟨hfm, rr, List.mem_cons_of_mem _ hrr, hrest⟩
        · rintro (h | ⟨hfm, rr, hrr, hname, hne, hinf⟩)
          · exact Or.inl (Or.inl h)
          · rcases List.mem_cons.mp hrr with rfl | hrr'
            · exact Or.inl (Or.inr ⟨f, hfm, rfl, hinf, hname.symm⟩)
            · exact Or.inr ⟨hfm, rr, hrr', hname, hne, hinf⟩
  have h := main []
  simpa using h

/-- The Visualforce-page collector is the Apex-class algorithm applied to
`(Name, Markup)` records. -/
theorem vf_page_as_apex (o : String) (mrecs : List MarkupRecord)
    (d : Except String (List DescField)) :
    get_visualforce_page_usage o (.ok mrecs) d =
      get_apex_usage o (.ok (mrecs.map (fun r => { name := r.name, body := r.markup }))) d := by
  unfold get_visualforce_page_usage get_apex_usage
  cases d with
  | error e => rfl
  | ok fields =>
    dsimp only
    rw [show (QOutcome.ok (mrecs.map (fun r =>
        ({ name := r.name, body := r.markup } : CodeRecord)))).records =
      mrecs.map (fun r => ({ name := r.name, body := r.markup } : CodeRecord)) from rfl]
    rw [List.foldl_map]
    rfl

/-- So is the Visualforce-component collector. -/
theorem vf_component_as_apex (o : String) (mrecs : List MarkupRecord)
    (d : Except String (List DescField)) :
    get_visualforce_component_usage o (.ok mrecs) d =
      get_apex_usage o (.ok (mrecs.map (fun r => { name := r.name, body := r.markup }))) d := by
  unfold get_visualforce_component_usage get_apex_usage
  cases d with
  | error e => rfl
  | ok fields =>
    dsimp only
    rw [show (QOutcome.ok (mrecs.map (fun r =>
        ({ name := r.name, body := r.markup } : CodeRecord)))).records =
      mrecs.map (fun r => ({ name := r.name, body := r.markup } : CodeRecord)) from rfl]
    rw [List.foldl_map]
    rfl

/-! ## Claim theorems -/

/-- C8: for every object name and executor response the page-layout
collector returns the empty mapping (it enumerates layout records but
attributes no fields), and merging that empty mapping leaves any index
unchanged — the Page Layouts category contributes no per-field data. -/
theorem page_layout_collector_is_empty (o : String) (q : QOutcome LayoutRecord)
    (ud : Index) (c : String) :
    get_page_layout_usage o q = [] ∧
    merge_usage_data ud (get_page_layout_usage o q) c = ud := by
  refine ⟨get_page_layout_usage_eq_nil o q, ?_⟩
  rw [get_page_layout_usage_eq_nil]
  rfl

/-- C4: the report iterates the six categories in the fixed display order
`section_order` (Page Layouts, Validation Rules, Apex Classes, Apex
Triggers, Visualforce Pages, Visualforce Components); each present,
non-empty category emits its name, one bulleted line per entity name in
ascending order, and a blank separator, and the joined result is trimmed.
On the spec's scenario the Page Layouts section precedes Apex Classes,
which lists ClassA before ClassB. -/
theorem formatter_order_and_scenario :
    (∀ usage_data : Entry,
      formatted_sections usage_data = section_order.flatMap (section_block usage_data) ∧
      format_usage usage_data =
        pyStrip (pyJoin "\n" (section_order.flatMap (section_block usage_data)))) ∧
    format_usage [("Apex Classes", ["ClassB", "ClassA"]), ("Page Layouts", ["Layout1"])] =
      "Page Layouts\n- Layout1\n\nApex Classes\n- ClassA\n- ClassB" := by
  constructor
  · intro usage_data
    refine ⟨formatted_sections_eq_flatMap usage_data, ?_⟩
    unfold format_usage
    rw [formatted_sections_eq_flatMap]
  · decide

/-- C5 counterexample: on the spec's own example the extractor also
returns `Account__c` (which independently matches the custom-field
pattern), so its output is not exactly the set `{"Status__c"}`. -/
theorem extract_not_exactly_status :
    "Account__c" ∈ extract_fields_from_text "if (Account__c.Status__c == 'X')" "Account" ∧
    ¬ (∀ x, x ∈ extract_fields_from_text "if (Account__c.Status__c == 'X')" "Account" ↔
        x = "Status__c") := by
  constructor
  · decide
  · intro h
    have hx := (h "Account__c").mp (by decide)
    exact absurd hx (by decide)

/-- C5 amended: on that input the extractor returns exactly
`["Account__c", "Status__c"]`; in general it returns exactly the maximal
word-character runs of the text that match the custom-field pattern
(letter head, word characters, literal `__c` suffix), independently of the
`object_name` argument (which the source ignores), and empty text yields
the empty result. -/
theorem extract_fields_amended :
    extract_fields_from_text "if (Account__c.Status__c == 'X')" "Account" =
      ["Account__c", "Status__c"] ∧
    (∀ text o₁ o₂, extract_fields_from_text text o₁ = extract_fields_from_text text o₂) ∧
    (∀ o, extract_fields_from_text "" o = []) ∧
    (∀ text o s, s ∈ extract_fields_from_text text o ↔
        s ∈ wordRuns text ∧ isCustomFieldToken s = true) := by
  refine ⟨by decide, fun _ _ _ => rfl, fun _ => rfl, ?_⟩
  intro text o s
  unfold extract_fields_from_text
  exact List.mem_filter

/-- C9 counterexample: the page-layout collector's request URL for object
`Account` is not `"tooling/query/?q=" ++ urllib.parse.quote(soql)` for any
SOQL string: it contains a raw single quote, which percent-encoding never
emits. -/
theorem page_layout_url_not_encoded :
    ¬ ∃ s, page_layout_url "Account" = tooling_query_url s := by
  rintro ⟨s, hs⟩
  have hmem : '\'' ∈ (tooling_query_url s).data := hs ▸ quote_mem_page_layout_url "Account"
  rw [tooling_query_url, String.data_append] at hmem
  rcases List.mem_append.mp hmem with h | h
  · exact absurd h (by decide)
  · exact pyQuote_no_quote s h

/-- C9 amended: of the six request URLs a build issues, the five built by
`_tooling_query` are `"tooling/query/?q=" ++ urllib.parse.quote(soql)`,
percent-encoded; the page-layout URL is built by hand with the object name
and quotes interpolated raw, and for every object name it is not the
encoding of any query string. -/
theorem query_encoding_amended (o : String) :
    buildQueries o =
      [tooling_query_url (validation_rule_soql o), tooling_query_url apex_soql,
       tooling_query_url (trigger_soql o), tooling_query_url vf_page_soql,
       tooling_query_url vf_component_soql, page_layout_url o] ∧
    (¬ ∃ s, page_layout_url o = tooling_query_url s) := by
  refine ⟨rfl, ?_⟩
  rintro ⟨s, hs⟩
  have hmem : '\'' ∈ (tooling_query_url s).data := hs ▸ quote_mem_page_layout_url o
  rw [tooling_query_url, String.data_append] at hmem
  rcases List.mem_append.mp hmem with h | h
  · exact absurd h (by decide)
  · exact pyQuote_no_quote s h

/-- C7 counterexample: the trigger collector records `Trig1` under
`Account.Status__c` although its body does not contain the object name
`Account`, and its SOQL carries no `LIMIT` bound at all — unlike the
Apex-class query's `LIMIT 500`. -/
theorem trigger_collector_counterexample :
    alGet (get_trigger_usage "Account"
        (.ok [{ name := some "Trig1", body := some "Status__c only" }])
        (.ok [{ name := some "Status__c" }])) "Account.Status__c" = some ["Trig1"] ∧
    pyIn "Account" "Status__c only" = false ∧
    pyIn "LIMIT" (trigger_soql "Account") = false ∧
    pyIn "LIMIT 500" apex_soql = true := by
  exact ⟨by decide, by decide, by decide, by decide⟩

/-- C7 amended: the Apex-class, Visualforce-page and Visualforce-component
collectors fetch at most 500 candidates (`LIMIT 500` in their queries) and
record an entity under `FieldKey(o, f)` exactly when `f` is a known field
and the entity's non-empty text contains both the object name and `f` as
substrings; the trigger collector instead queries per object with no
`LIMIT` and records an entity exactly when its non-empty body contains the
field name — with no object-name containment test. -/
theorem direct_match_amended (o : String) (recs : List CodeRecord)
    (mrecs : List MarkupRecord) (fields : List DescField) (f x : String) :
    (x ∈ (alGet (get_apex_usage o (.ok recs) (.ok fields)) (o ++ "." ++ f)).getD [] ↔
      f ∈ describeFieldNames fields ∧ ∃ r ∈ recs, r.name.getD "" = x ∧
        r.body.getD "" ≠ "" ∧ pyIn o (r.body.getD "") = true ∧
        pyIn f (r.body.getD "") = true) ∧
    (x ∈ (alGet (get_trigger_usage o (.ok recs) (.ok fields)) (o ++ "." ++ f)).getD [] ↔
      f ∈ describeFieldNames fields ∧ ∃ r ∈ recs, r.name.getD "" = x ∧
        r.body.getD "" ≠ "" ∧ pyIn f (r.body.getD "") = true) ∧
    (get_visualforce_page_usage o (.ok mrecs) (.ok fields) =
      get_apex_usage o (.ok (mrecs.map (fun r => { name := r.name, body := r.markup })))
        (.ok fields)) ∧
    (get_visualforce_component_usage o (.ok mrecs) (.ok fields) =
      get_apex_usage o (.ok (mrecs.map (fun r => { name := r.name, body := r.markup })))
        (.ok fields)) ∧
    pyIn "LIMIT 500" apex_soql = true ∧ pyIn "LIMIT 500" vf_page_soql = true ∧
    pyIn "LIMIT 500" vf_component_soql = true ∧
    trigger_soql o = "SELECT Name, Body FROM ApexTrigger WHERE TableEnumOrId = '" ++ o ++ "'" :=
  ⟨mem_get_apex_usage o recs fields f x, mem_get_trigger_usage o recs fields f x,
   vf_page_as_apex o mrecs (.ok fields), vf_component_as_apex o mrecs (.ok fields),
   by decide, by decide, by decide, rfl⟩

/-- C2: after the aggregator merges all six collector outputs, the
collection stored under `(field_key, category)` holds exactly the union of
the entity-name sets the contributing collectors returned for that slot,
and it contains no duplicate entity name. -/
theorem merge_union_correct (env : SfEnv) (o fk c x : String) :
    (x ∈ idxGetD (mergeAll (buildSteps env o)) fk c ↔
      ∃ s ∈ buildSteps env o, s.2.1 = c ∧ x ∈ (alGet s.1 fk).getD []) ∧
    (idxGetD (mergeAll (buildSteps env o)) fk c).Nodup := by
  have hkeys : ∀ s ∈ buildSteps env o, (alKeys s.1).Nodup :=
    fun s hs => (buildSteps_wf env o s hs).1
  have hmerge := idxGet_mergeAll (buildSteps env o) hkeys fk c
  by_cases hnil : contribs (buildSteps env o) fk c = []
  · rw [if_pos hnil] at hmerge
    constructor
    · rw [idxGetD, hmerge]
      simp only [Option.getD_none]
      constructor
      · intro hx
        exact absurd hx (List.not_mem_nil x)
      · rintro ⟨s, hs, hcat, hx⟩
        have hfl : x ∈ (contribs (buildSteps env o) fk c).flatten :=
          (mem_flatten_contribs _ _ _ _).mpr ⟨s, hs, hcat, hx⟩
        rw [hnil] at hfl
        exact absurd hfl (List.not_mem_nil x)
    · rw [idxGetD, hmerge]
      simp
  · rw [if_neg hnil] at hmerge
    constructor
    · rw [idxGetD, hmerge]
      simp only [Option.getD_some]
      rw [mem_flatten_map_pySorted, mem_flatten_contribs]
    · rw [idxGetD, hmerge]
      simp only [Option.getD_some]
      have hlen := contribs_length_le_one (buildSteps_categories_nodup env o) fk c
      rcases hcon : contribs (buildSteps env o) fk c with _ | ⟨l, rest⟩
      · exact absurd hcon hnil
      · rcases rest with _ | ⟨l2, rest2⟩
        · simp only [List.map_cons, List.map_nil, List.flatten_cons, List.flatten_nil,
            List.append_nil]
          have hlm : l ∈ contribs (buildSteps env o) fk c := by
            rw [hcon]; exact List.mem_cons_self _ _
          obtain ⟨s, hs, _, ha⟩ := mem_contribs hlm
          exact pySorted_nodup (((buildSteps_wf env o s hs).2 (fk, l) (alGet_mem ha)).2)
        · rw [hcon] at hlen
          simp at hlen

/-- C6: in every `ObjectUsageIndex` a build stores in the cache — complete
or interrupted — every category entry that is present maps to a non-empty
collection: empty categories are omitted, never stored as empty sets. -/
theorem index_entries_nonempty (env : SfEnv) (st : TrackerState) (o : String)
    (i : Option (Nat × String)) (fk c : String) (idx : Index) (l : List String)
    (hidx : alGet (build_usage_cache_for_object env st o i).usage_cache o = some idx)
    (hl : idxGet idx fk c = some l) : l ≠ [] := by
  rw [build_cache_lookup_self] at hidx
  obtain rfl := (Option.some_inj.mp hidx).symm
  have hkeys := buildSteps_take_keys_nodup env o (buildK i)
  rw [idxGet_mergeAll _ hkeys] at hl
  by_cases hnil : contribs ((buildSteps env o).take (buildK i)) fk c = []
  · rw [if_pos hnil] at hl
    exact absurd hl (by simp)
  · rw [if_neg hnil] at hl
    obtain rfl := (Option.some_inj.mp hl).symm
    apply flatten_map_pySorted_ne_nil hnil
    intro l' hl'
    obtain ⟨s, hs, _, ha⟩ := mem_contribs hl'
    exact ((buildSteps_take_wf env o (buildK i) s hs).2 (fk, l') (alGet_mem ha)).1

/-- C6 witness: in the concrete environment the validation-rule entry of
`Account.Status__c` is stored and is non-empty. -/
theorem index_entries_nonempty_witness : (["Rule1"] : List String) ≠ [] :=
  index_entries_nonempty envW {} "Account" none "Account.Status__c" "Validation Rules"
    (mergeAll ((buildSteps envW "Account").take (buildK none))) ["Rule1"]
    (build_cache_lookup_self envW {} "Account" none) (by decide)

/-- C1: with `o` uncached, the first `get_field_usage` call issues exactly
the six collector queries (one round); a second call for the same object —
whatever interrupt behaviour it would have — returns the identical output
and leaves the state (cache, url trace, log) unchanged: the cached
`ObjectUsageIndex` is reused and no further query is issued. -/
theorem get_field_usage_idempotent (env : SfEnv) (st : TrackerState) (o fapi : String)
    (i : Option (Nat × String)) (hm : alGet st.usage_cache o = none) :
    (get_field_usage env ((get_field_usage env st o fapi none).2) o fapi i).1 =
      (get_field_usage env st o fapi none).1 ∧
    (get_field_usage env ((get_field_usage env st o fapi none).2) o fapi i).2 =
      (get_field_usage env st o fapi none).2 ∧
    ((get_field_usage env st o fapi none).2).urls = st.urls ++ buildQueries o := by
  have hstate : (get_field_usage env st o fapi none).2 =
      build_usage_cache_for_object env st o none := by
    rw [get_field_usage_pair]
    simp [hm]
  have hsome : (alGet ((get_field_usage env st o fapi none).2).usage_cache o).isSome := by
    rw [hstate, build_cache_lookup_self]
    rfl
  refine ⟨?_, ?_, ?_⟩
  · have hsomeB : (alGet (build_usage_cache_for_object env st o none).usage_cache o).isSome := by
      rw [build_cache_lookup_self]
      rfl
    rw [get_field_usage_pair env ((get_field_usage env st o fapi none).2) o fapi i,
      get_field_usage_pair env st o fapi none]
    simp only [hm, Option.isSome_none, Bool.false_eq_true, if_false, hstate, hsomeB, if_true]
  · rw [get_field_usage_pair env ((get_field_usage env st o fapi none).2) o fapi i]
    simp only [hsome, if_true]
  · rw [hstate, build_urls]
    rfl

/-- C1 witness: in the concrete environment the second call leaves the
state unchanged and the first call's trace is the six queries. -/
theorem get_field_usage_idempotent_witness :
    (get_field_usage envW ((get_field_usage envW {} "Account" "Status__c" none).2)
        "Account" "Status__c" none).2 =
      (get_field_usage envW {} "Account" "Status__c" none).2 ∧
    ((get_field_usage envW {} "Account" "Status__c" none).2).urls =
      ([] : List String) ++ buildQueries "Account" :=
  ⟨(get_field_usage_idempotent envW {} "Account" "Status__c" none rfl).2.1,
   (get_field_usage_idempotent envW {} "Account" "Status__c" none rfl).2.2⟩

/-! ## Per-collector failure isolation -/

/-- On a cache miss any `get_field_usage` call transitions the state by
exactly one build. -/
theorem get_field_usage_miss_state (env : SfEnv) (st : TrackerState) (o fapi : String)
    (i : Option (Nat × String)) (hm : alGet st.usage_cache o = none) :
    (get_field_usage env st o fapi i).2 = build_usage_cache_for_object env st o i := by
  rw [get_field_usage_pair]
  simp [hm]

/-- An uninterrupted build issues all six queries. -/
theorem build_urls_full (env : SfEnv) (st : TrackerState) (o : String) :
    (build_usage_cache_for_object env st o none).urls = st.urls ++ buildQueries o := by
  rw [build_urls]
  rfl

/-- Every line of any step's log block reaches the status sink during an
uninterrupted build. -/
theorem build_log_mem (env : SfEnv) (st : TrackerState) (o w : String)
    (block : List String) (hw : w ∈ block)
    (hblock : block ∈ (buildSteps env o).map (fun s => s.2.2.2)) :
    w ∈ (build_usage_cache_for_object env st o none).log := by
  show w ∈ st.log ++ ["  Building field usage cache for " ++ o ++ "..."]
      ++ (((buildSteps env o).take ((buildSteps env o).length)).map (fun s => s.2.2.2)).flatten
      ++ ["  ✅ Usage cache built"]
  refine List.mem_append_left _ (List.mem_append_right _ ?_)
  rw [List.take_length, List.mem_flatten]
  exact ⟨block, hblock, hw⟩

/-- Two step lists with the same contributions at `(fk, c)` merge to the
same `(fk, c)` slot. -/
theorem idxGet_mergeAll_congr {steps steps' : List BuildStep}
    (hWF : ∀ s ∈ steps, (alKeys s.1).Nodup) (hWF' : ∀ s ∈ steps', (alKeys s.1).Nodup)
    (fk c : String) (hcon : contribs steps fk c = contribs steps' fk c) :
    idxGet (mergeAll steps) fk c = idxGet (mergeAll steps') fk c := by
  rw [idxGet_mergeAll _ hWF, idxGet_mergeAll _ hWF', hcon]

/-- Slots outside `Validation Rules` are independent of the VR outcome. -/
theorem idxGet_vr_indep (env : SfEnv) (o fk c : String)
    (hc : c ≠ "Validation Rules") (q q' : QOutcome VRuleRecord) :
    idxGet (mergeAll (buildSteps { env with vrOutcome := fun _ => q } o)) fk c =
      idxGet (mergeAll (buildSteps { env with vrOutcome := fun _ => q' } o)) fk c := by
  have hne : ¬ ("Validation Rules" = c) := fun h => hc h.symm
  refine idxGet_mergeAll_congr (fun s hs => (buildSteps_wf _ o s hs).1)
    (fun s hs => (buildSteps_wf _ o s hs).1) fk c ?_
  simp only [buildSteps, contribs, List.filterMap_cons, List.filterMap_nil, if_neg hne]

/-- Slots outside `Apex Classes` are independent of the Apex outcome. -/
theorem idxGet_apex_indep (env : SfEnv) (o fk c : String)
    (hc : c ≠ "Apex Classes") (q q' : QOutcome CodeRecord) :
    idxGet (mergeAll (buildSteps { env with apexOutcome := q } o)) fk c =
      idxGet (mergeAll (buildSteps { env with apexOutcome := q' } o)) fk c := by
  have hne : ¬ ("Apex Classes" = c) := fun h => hc h.symm
  refine idxGet_mergeAll_congr (fun s hs => (buildSteps_wf _ o s hs).1)
    (fun s hs => (buildSteps_wf _ o s hs).1) fk c ?_
  simp only [buildSteps, contribs, List.filterMap_cons, List.filterMap_nil, if_neg hne]

/-- Slots outside `Apex Triggers` are independent of the trigger outcome. -/
theorem idxGet_trigger_indep (env : SfEnv) (o fk c : String)
    (hc : c ≠ "Apex Triggers") (q q' : QOutcome CodeRecord) :
    idxGet (mergeAll (buildSteps { env with triggerOutcome := fun _ => q } o)) fk c =
      idxGet (mergeAll (buildSteps { env with triggerOutcome := fun _ => q' } o)) fk c := by
  have hne : ¬ ("Apex Triggers" = c) := fun h => hc h.symm
  refine idxGet_mergeAll_congr (fun s hs => (buildSteps_wf _ o s hs).1)
    (fun s hs => (buildSteps_wf _ o s hs).1) fk c ?_
  simp only [buildSteps, contribs, List.filterMap_cons, List.filterMap_nil, if_neg hne]

/-- Slots outside `Visualforce Pages` are independent of the VF-page
outcome. -/
theorem idxGet_vf_page_indep (env : SfEnv) (o fk c : String)
    (hc : c ≠ "Visualforce Pages") (q q' : QOutcome MarkupRecord) :
    idxGet (mergeAll (buildSteps { env with vfPageOutcome := q } o)) fk c =
      idxGet (mergeAll (buildSteps { env with vfPageOutcome := q' } o)) fk c := by
  have hne : ¬ ("Visualforce Pages" = c) := fun h => hc h.symm
  refine idxGet_mergeAll_congr (fun s hs => (buildSteps_wf _ o s hs).1)
    (fun s hs => (buildSteps_wf _ o s hs).1) fk c ?_
  simp only [buildSteps, contribs, List.filterMap_cons, List.filterMap_nil, if_neg hne]

/-- Slots outside `Visualforce Components` are independent of the
VF-component outcome. -/
theorem idxGet_vf_component_indep (env : SfEnv) (o fk c : String)
    (hc : c ≠ "Visualforce Components") (q q' : QOutcome MarkupRecord) :
    idxGet (mergeAll (buildSteps { env with vfComponentOutcome := q } o)) fk c =
      idxGet (mergeAll (buildSteps { env with vfComponentOutcome := q' } o)) fk c := by
  have hne : ¬ ("Visualforce Components" = c) := fun h => hc h.symm
  refine idxGet_mergeAll_congr (fun s hs => (buildSteps_wf _ o s hs).1)
    (fun s hs => (buildSteps_wf _ o s hs).1) fk c ?_
  simp only [buildSteps, contribs, List.filterMap_cons, List.filterMap_nil, if_neg hne]

/-- Slots outside `Page Layouts` are independent of the layout outcome. -/
theorem idxGet_layout_indep (env : SfEnv) (o fk c : String)
    (hc : c ≠ "Page Layouts") (q q' : QOutcome LayoutRecord) :
    idxGet (mergeAll (buildSteps { env with layoutOutcome := fun _ => q } o)) fk c =
      idxGet (mergeAll (buildSteps { env with layoutOutcome := fun _ => q' } o)) fk c := by
  have hne : ¬ ("Page Layouts" = c) := fun h => hc h.symm
  refine idxGet_mergeAll_congr (fun s hs => (buildSteps_wf _ o s hs).1)
    (fun s hs => (buildSteps_wf _ o s hs).1) fk c ?_
  simp only [buildSteps, contribs, List.filterMap_cons, List.filterMap_nil, if_neg hne]

/-- The build-level isolation facts for one failing collector: `block` is
the failing collector's status-sink output under environment `envF` — it
is non-empty and every one of its lines reaches the log of the call's
final state; the build still issues all six queries; and every index slot
outside the collector's category `cat` is exactly what the same build
yields under `envR`, the environment with that collector's outcome
replaced arbitrarily. -/
abbrev isolatedBuild (st : TrackerState) (o fapi cat : String) (block : List String)
    (envF envR : SfEnv) (fk c : String) : Prop :=
  block ≠ [] ∧
  (∀ w ∈ block, w ∈ ((get_field_usage envF st o fapi none).2).log) ∧
  ((get_field_usage envF st o fapi none).2).urls = st.urls ++ buildQueries o ∧
  (c ≠ cat →
    idxGet (mergeAll (buildSteps envF o)) fk c =
      idxGet (mergeAll (buildSteps envR o)) fk c)
/-- C3: every category collector is failure-isolated.  Part one, the
collector boundary: an exception while processing records is caught inside
the collector, which returns exactly the partial mapping accumulated from
the processed prefix (stated for all six collectors); a failed
`describe()` is caught the same way, before anything accumulated, yielding
the empty mapping; a failed query is caught inside `_tooling_query` and
surfaces as an empty record list.  Part two, per collector: when it fails,
its (non-empty) warning output reaches the status sink, the build still
issues all six queries — the other five collectors still run — and every
index slot outside the failing collector's category is exactly what it
would be under ANY outcome of that collector, so the others' results still
appear in the final index. -/
theorem collector_failure_isolated (env : SfEnv) (st : TrackerState)
    (o fapi msg fk c : String) (hm : alGet st.usage_cache o = none) :
    ((∀ l : List VRuleRecord,
        get_validation_rule_usage o (.procError msg l) =
          get_validation_rule_usage o (.ok l)) ∧
     (∀ (l : List CodeRecord) (d : Except String (List DescField)),
        get_apex_usage o (.procError msg l) d = get_apex_usage o (.ok l) d ∧
        get_trigger_usage o (.procError msg l) d = get_trigger_usage o (.ok l) d) ∧
     (∀ (l : List MarkupRecord) (d : Except String (List DescField)),
        get_visualforce_page_usage o (.procError msg l) d =
          get_visualforce_page_usage o (.ok l) d ∧
        get_visualforce_component_usage o (.procError msg l) d =
          get_visualforce_component_usage o (.ok l) d) ∧
     (∀ l : List LayoutRecord,
        get_page_layout_usage o (.procError msg l) = get_page_layout_usage o (.ok l)) ∧
     (∀ (q : QOutcome CodeRecord) (qm : QOutcome MarkupRecord),
        get_apex_usage o q (.error msg) = [] ∧
        get_trigger_usage o q (.error msg) = [] ∧
        get_visualforce_page_usage o qm (.error msg) = [] ∧
        get_visualforce_component_usage o qm (.error msg) = []) ∧
     (∀ d : Except String (List DescField),
        get_validation_rule_usage o (.queryError msg) =
          get_validation_rule_usage o (.ok []) ∧
        get_apex_usage o (.queryError msg) d = get_apex_usage o (.ok []) d ∧
        get_trigger_usage o (.queryError msg) d = get_trigger_usage o (.ok []) d ∧
        get_visualforce_page_usage o (.queryError msg) d =
          get_visualforce_page_usage o (.ok []) d ∧
        get_visualforce_component_usage o (.queryError msg) d =
          get_visualforce_component_usage o (.ok []) d ∧
        get_page_layout_usage o (.queryError msg) = get_page_layout_usage o (.ok []))) ∧
    (∀ (l : List VRuleRecord) (q' : QOutcome VRuleRecord),
      isolatedBuild st o fapi "Validation Rules" (vr_logs (.procError msg l))
        { env with vrOutcome := fun _ => .procError msg l }
        { env with vrOutcome := fun _ => q' } fk c) ∧
    (∀ (l : List CodeRecord) (q' : QOutcome CodeRecord),
      isolatedBuild st o fapi "Apex Classes"
        (code_collector_logs "    ⚠ Could not query Apex classes: "
          (.procError msg l) (env.describe o))
        { env with apexOutcome := .procError msg l }
        { env with apexOutcome := q' } fk c) ∧
    (∀ (l : List CodeRecord) (q' : QOutcome CodeRecord),
      isolatedBuild st o fapi "Apex Triggers"
        (code_collector_logs "    ⚠ Could not query triggers: "
          (.procError msg l) (env.describe o))
        { env with triggerOutcome := fun _ => .procError msg l }
        { env with triggerOutcome := fun _ => q' } fk c) ∧
    (∀ (l : List MarkupRecord) (q' : QOutcome MarkupRecord),
      isolatedBuild st o fapi "Visualforce Pages"
        (code_collector_logs "    ⚠ Could not query Visualforce pages: "
          (.procError msg l) (env.describe o))
        { env with vfPageOutcome := .procError msg l }
        { env with vfPageOutcome := q' } fk c) ∧
    (∀ (l : List MarkupRecord) (q' : QOutcome MarkupRecord),
      isolatedBuild st o fapi "Visualforce Components"
        (code_collector_logs "    ⚠ Could not query Visualforce components: "
          (.procError msg l) (env.describe o))
        { env with vfComponentOutcome := .procError msg l }
        { env with vfComponentOutcome := q' } fk c) ∧
    (∀ (l : List LayoutRecord) (q' : QOutcome LayoutRecord),
      isolatedBuild st o fapi "Page Layouts" (layout_logs (.procError msg l))
        { env with layoutOutcome := fun _ => .procError msg l }
        { env with layoutOutcome := fun _ => q' } fk c) := by
  have hstate : ∀ envF : SfEnv, (get_field_usage envF st o fapi none).2 =
      build_usage_cache_for_object envF st o none :=
    fun envF => get_field_usage_miss_state envF st o fapi none hm
  refine ⟨⟨fun l => rfl, fun l d => ⟨rfl, rfl⟩, fun l d => ⟨rfl, rfl⟩, fun l => rfl,
    fun q qm => ⟨rfl, rfl, rfl, rfl⟩,
    fun d => ⟨rfl, rfl, rfl, rfl, rfl, rfl⟩⟩, ?_, ?_, ?_, ?_, ?_, ?_⟩
  · intro l q'
    refine ⟨by simp [vr_logs, tooling_error_log], ?_, ?_, fun hcc => idxGet_vr_indep env o fk c hcc _ _⟩
    · intro w hw
      rw [hstate]
      refine build_log_mem _ st o w _ hw ?_
      exact List.mem_map_of_mem _ (List.mem_cons_self _ _)
    · rw [hstate]
      exact build_urls_full _ st o
  · intro l q'
    refine ⟨?_, ?_, ?_, fun hcc => idxGet_apex_indep env o fk c hcc _ _⟩
    · cases hd : env.describe o <;> simp [code_collector_logs, tooling_error_log, hd]
    · intro w hw
      rw [hstate]
      refine build_log_mem _ st o w _ hw ?_
      exact List.mem_map_of_mem _ (List.mem_cons_of_mem _ (List.mem_cons_self _ _))
    · rw [hstate]
      exact build_urls_full _ st o
  · intro l q'
    refine ⟨?_, ?_, ?_, fun hcc => idxGet_trigger_indep env o fk c hcc _ _⟩
    · cases hd : env.describe o <;> simp [code_collector_logs, tooling_error_log, hd]
    · intro w hw
      rw [hstate]
      refine build_log_mem _ st o w _ hw ?_
      exact List.mem_map_of_mem _ (List.mem_cons_of_mem _ (List.mem_cons_of_mem _
        (List.mem_cons_self _ _)))
    · rw [hstate]
      exact build_urls_full _ st o
  · intro l q'
    refine ⟨?_, ?_, ?_, fun hcc => idxGet_vf_page_indep env o fk c hcc _ _⟩
    · cases hd : env.describe o <;> simp [code_collector_logs, tooling_error_log, hd]
    · intro w hw
      rw [hstate]
      refine build_log_mem _ st o w _ hw ?_
      exact List.mem_map_of_mem _ (List.mem_cons_of_mem _ (List.mem_cons_of_mem _
        (List.mem_cons_of_mem _ (List.mem_cons_self _ _))))
    · rw [hstate]
      exact build_urls_full _ st o
  · intro l q'
    refine ⟨?_, ?_, ?_, fun hcc => idxGet_vf_component_indep env o fk c hcc _ _⟩
    · cases hd : env.describe o <;> simp [code_collector_logs, tooling_error_log, hd]
    · intro w hw
      rw [hstate]
      refine build_log_mem _ st o w _ hw ?_
      exact List.mem_map_of_mem _ (List.mem_cons_of_mem _ (List.mem_cons_of_mem _
        (List.mem_cons_of_mem _ (List.mem_cons_of_mem _ (List.mem_cons_self _ _)))))
    · rw [hstate]
      exact build_urls_full _ st o
  · intro l q'
    refine ⟨by simp [layout_logs], ?_, ?_, fun hcc => idxGet_layout_indep env o fk c hcc _ _⟩
    · intro w hw
      rw [hstate]
      refine build_log_mem _ st o w _ hw ?_
      exact List.mem_map_of_mem _ (List.mem_cons_of_mem _ (List.mem_cons_of_mem _
        (List.mem_cons_of_mem _ (List.mem_cons_of_mem _ (List.mem_cons_of_mem _
          (List.mem_cons_self _ _))))))
    · rw [hstate]
      exact build_urls_full _ st o

/-- C3 witness: a concrete failing Apex-class collector leaves the
Validation Rules slot exactly as any other Apex outcome would. -/
theorem collector_failure_isolated_witness :
    idxGet (mergeAll (buildSteps
        { envW with apexOutcome := .procError "boom" [] } "Account"))
      "Account.Status__c" "Validation Rules" =
    idxGet (mergeAll (buildSteps
        { envW with apexOutcome := .ok [] } "Account"))
      "Account.Status__c" "Validation Rules" :=
  ((collector_failure_isolated envW {} "Account" "Status__c" "boom" "Account.Status__c"
      "Validation Rules" rfl).2.2.1 [] (.ok [])).2.2.2 (by decide)


/-- C10: when an exception interrupts the build after `k` of the six
steps, the partial index accumulated so far is still stored under
`Cache[o]` (the `except` branch writes it too), the url trace shows only
the first `k` queries, and any later call for the same object reuses the
cached partial index without re-running any collector. -/
theorem interrupted_build_cached (env : SfEnv) (st : TrackerState)
    (o fapi fapi' msg : String) (k : Nat) (i' : Option (Nat × String))
    (hm : alGet st.usage_cache o = none) :
    alGet ((get_field_usage env st o fapi (some (k, msg))).2).usage_cache o =
      some (mergeAll ((buildSteps env o).take (min k 6))) ∧
    ((get_field_usage env st o fapi (some (k, msg))).2).urls =
      st.urls ++ (buildQueries o).take (min k 6) ∧
    (get_field_usage env ((get_field_usage env st o fapi (some (k, msg))).2) o fapi' i').2 =
      (get_field_usage env st o fapi (some (k, msg))).2 := by
  have hstate : (get_field_usage env st o fapi (some (k, msg))).2 =
      build_usage_cache_for_object env st o (some (k, msg)) := by
    rw [get_field_usage_pair]
    simp [hm]
  have hsome : (alGet ((get_field_usage env st o fapi (some (k, msg))).2).usage_cache o).isSome := by
    rw [hstate, build_cache_lookup_self]
    rfl
  refine ⟨?_, ?_, ?_⟩
  · rw [hstate, build_cache_lookup_self]
    rfl
  · rw [hstate, build_urls]
    rfl
  · rw [get_field_usage_pair]
    simp only [hsome, if_true]

/-- C10 witness: interrupting after two steps in the concrete environment
still caches the two-step partial index and a subsequent call keeps the
state. -/
theorem interrupted_build_cached_witness :
    alGet ((get_field_usage envW {} "Account" "Status__c" (some (2, "oops"))).2).usage_cache
        "Account" =
      some (mergeAll ((buildSteps envW "Account").take (min 2 6))) ∧
    (get_field_usage envW ((get_field_usage envW {} "Account" "Status__c"
        (some (2, "oops"))).2) "Account" "X__c" none).2 =
      (get_field_usage envW {} "Account" "Status__c" (some (2, "oops"))).2 :=
  ⟨(interrupted_build_cached envW {} "Account" "Status__c" "X__c" "oops" 2 none rfl).1,
   (interrupted_build_cached envW {} "Account" "Status__c" "X__c" "oops" 2 none rfl).2.2⟩
